import Mathlib

/-!
# Verification of the better-docs extraction and grouping core

This file gives a shallow embedding, in Lean 4, of the route-extraction and
module-grouping core of the better-docs repository:

* `src/types/universal-types.ts` — the data model (`UniversalRoute`,
  `Parameter`, `UniversalController`, `UniversalService`);
* `src/extractors/express/express-extractor.ts` — the module grouper
  (`groupRoutesByController`, `extractModuleFromName`) and the fixed
  parameter shape (`extractParameters`);
* the `GenericExtractor` class (pattern-based route scanning over raw file
  text, declaration-based controller extraction, handler-name resolution).

JavaScript strings are modelled as Lean `String`s (ASCII is all that the
relevant code paths touch); JavaScript objects used as string-keyed maps
(`Record<string, any[]>`, `Map<string, string>`) are modelled as association
lists in key-insertion order, which matches the enumeration order the code
relies on.  Regex scanning with the `g` flag (mutable `lastIndex`) is
modelled by fuel-based recursive scanners that find leftmost matches and
resume right after each match, exactly as `RegExp.exec` does for these
patterns (none of which can match the empty string).
-/

namespace BetterDocs

/-! ## Data model (`universal-types.ts`) -/

/-- `Parameter` from `universal-types.ts`: name, type text, optional flag,
optional binding decorator name. -/
structure Parameter where
  name : String
  type : String
  optional : Bool
  decorator : Option String
deriving DecidableEq, Repr

/-- `UniversalRoute` from `universal-types.ts`. The `framework` field is the
string value of the framework tag union. -/
structure UniversalRoute where
  path : String
  method : String
  handler : String
  middleware : List String
  parameters : List Parameter
  framework : String
deriving DecidableEq, Repr

/-- `UniversalController` restricted to the fields the grouping and
extraction code reads (`name`, `routes`). -/
structure ControllerG where
  name : String
  routes : List UniversalRoute
deriving DecidableEq, Repr

/-- `UniversalService` restricted to the field the grouping code reads
(`name`). -/
structure ServiceG where
  name : String
deriving DecidableEq, Repr

/-! ## String-keyed maps in insertion order

`Record<string, UniversalRoute[]>` (the `chunks` object) and
`Map<string, string>` (`serviceModules`) are modelled as association lists.
`pushKey` models `chunks[k].push(r)` (creating the key at the end on first
use); `setAssoc` models `Map.set` (overwrite value, keep position). -/

/-- The `chunks` accumulator of `groupRoutesByController`. -/
abbrev Chunks := List (String × List UniversalRoute)

/-- `chunks[k] = chunks[k] ?? []; chunks[k].push(r)` on an insertion-ordered
string-keyed record. -/
def pushKey : Chunks → String → UniversalRoute → Chunks
  | [], k, r => [(k, [r])]
  | (k', rs) :: t, k, r =>
    if k' = k then (k', rs ++ [r]) :: t else (k', rs) :: pushKey t k r

/-- `Map.set k v` on an insertion-ordered association list: overwrite the
value if the key is present (keeping its position), else append. -/
def setAssoc : List (String × String) → String → String → List (String × String)
  | [], k, v => [(k, v)]
  | (k', v') :: t, k, v =>
    if k' = k then (k', v) :: t else (k', v') :: setAssoc t k v

/-- The ordered list of routes stored under key `k` (empty if absent);
models `chunks[k]`. -/
def chunkAt : Chunks → String → List UniversalRoute
  | [], _ => []
  | (k', rs) :: t, k => if k' = k then rs else chunkAt t k

/-- A route occurs somewhere among the values of the grouped output. -/
def routeInChunks (ch : Chunks) (r : UniversalRoute) : Prop :=
  ∃ k rs, (k, rs) ∈ ch ∧ r ∈ rs

/-! ## Substring containment (`String.prototype.includes`) -/

/-- The needle occurs as a prefix of the haystack. -/
def matchesAt : List Char → List Char → Bool
  | [], _ => true
  | _ :: _, [] => false
  | n :: ns, h :: hs => n == h && matchesAt ns hs

/-- The needle occurs somewhere in the haystack (list form). -/
def containsSubL (needle : List Char) : List Char → Bool
  | [] => matchesAt needle []
  | h :: hs => matchesAt needle (h :: hs) || containsSubL needle hs

/-- `hay.includes(needle)` from JavaScript. -/
def containsSub (hay needle : String) : Bool :=
  containsSubL needle.data hay.data

/-! ## JavaScript string primitives

Lean core's `String.toLower`, `endsWith`, `startsWith` and `splitOn` are
implemented over byte positions and do not reduce inside the kernel, so the
JavaScript string operations the code uses are modelled directly over the
underlying character lists (extensionally the same functions, ASCII case
mapping as in the analysed code paths). -/

/-- `s.toLowerCase()`. -/
def jsToLower (s : String) : String :=
  String.mk (s.data.map Char.toLower)

/-- `s.toUpperCase()`. -/
def jsToUpper (s : String) : String :=
  String.mk (s.data.map Char.toUpper)

/-- `s.endsWith(t)`. -/
def endsWithL (s t : String) : Bool :=
  matchesAt t.data.reverse s.data.reverse

/-- `s.startsWith(t)`. -/
def beginsWithL (s t : String) : Bool :=
  matchesAt t.data s.data

/-- `s.split('/')` (single-character separator, keeping empty fields). -/
def splitSlashAux : List Char → List Char → List String
  | [], cur => [String.mk cur.reverse]
  | c :: cs, cur =>
    if c == '/' then String.mk cur.reverse :: splitSlashAux cs []
    else splitSlashAux cs (c :: cur)

/-- `path.split('/')`. -/
def splitSlash (s : String) : List String :=
  splitSlashAux s.data []

/-! ## `extractModuleFromName` (express-extractor.ts, lines 789–805) -/

/-- The suffix alternation of the regex
`/(Service|Controller|Dto|Entity|Model|Type|Interface)$/i`, in source
order. -/
def moduleSuffixes : List String :=
  ["Service", "Controller", "Dto", "Entity", "Model", "Type", "Interface"]

/-- `name.replace(/(...)$/i, '')` for an alternation of literal words, none
of which is a case-insensitive suffix of another: drop the unique suffix
that matches case-insensitively at the end, if any. -/
def stripSuffixOnce (sufs : List String) (name : String) : String :=
  match sufs.find? (fun s => endsWithL (jsToLower name) (jsToLower s)) with
  | some s => name.dropRight s.length
  | none => name

/-- `extractModuleFromName` from express-extractor.ts: `null` on the empty
name; otherwise strip one naming suffix case-insensitively, lower-case, and
pluralize (`y` → `ies`, trailing `s` kept, else append `s`). -/
def extractModuleFromName (name : String) : Option String :=
  if name = "" then none
  else
    let cleanName := jsToLower (stripSuffixOnce moduleSuffixes name)
    if endsWithL cleanName "y" then some (cleanName.dropRight 1 ++ "ies")
    else if endsWithL cleanName "s" then some cleanName
    else some (cleanName ++ "s")

/-- The naming derivation rule as the specification words it: strip one of
the case-insensitive suffixes {Service, Controller, Dto, Entity, Model,
Type, Interface} from the end of the name if present, lower-case the
remainder, then pluralize (trailing `y` becomes `ies`; a name already
ending in `s` is unchanged; otherwise `s` is appended); the empty name
yields no candidate. Written here directly from the spec text, to be
compared with `extractModuleFromName` (taken from the source). -/
def deriveModuleNameSpec (name : String) : Option String :=
  if name = "" then none
  else
    let low := jsToLower name
    let stripped :=
      if endsWithL low "service" then name.dropRight 7
      else if endsWithL low "controller" then name.dropRight 10
      else if endsWithL low "dto" then name.dropRight 3
      else if endsWithL low "entity" then name.dropRight 6
      else if endsWithL low "model" then name.dropRight 5
      else if endsWithL low "type" then name.dropRight 4
      else if endsWithL low "interface" then name.dropRight 9
      else name
    let base := jsToLower stripped
    if endsWithL base "y" then some (base.dropRight 1 ++ "ies")
    else if endsWithL base "s" then some base
    else some (base ++ "s")

/-! ## Module-name sanitization (express-extractor.ts, line 777) -/

/-- A character allowed by the sanitization class `[a-zA-Z0-9-_]`. -/
def allowedModuleChar (c : Char) : Bool :=
  c.isAlphanum || c == '-' || c == '_'

/-- `moduleName.replace(/[^a-zA-Z0-9-_]/g, '_')`. -/
def sanitizeModuleName (s : String) : String :=
  String.mk (s.data.map (fun c => if allowedModuleChar c then c else '_'))

/-! ## `groupRoutesByController` (express-extractor.ts, lines 688–787) -/

/-- One step of the `services.forEach` loop that fills the `serviceModules`
map: skip falsy names, skip `null` module candidates, else
`serviceModules.set(moduleName, service.name)`. -/
def serviceStep (acc : List (String × String)) (s : ServiceG) : List (String × String) :=
  if s.name ≠ "" then
    match extractModuleFromName s.name with
    | some m => setAssoc acc m s.name
    | none => acc
  else acc

/-- The `serviceModules` map: module name → service name, in discovery
order. -/
def buildServiceModules (services : List ServiceG) : List (String × String) :=
  services.foldl serviceStep []

/-- One step of the `controllers.forEach` loop: for a controller with a
truthy name (its `routes` array is always truthy, even when empty), derive
its module name and push all of its routes under that key. -/
def controllerStep (acc : Chunks) (c : ControllerG) : Chunks :=
  if c.name ≠ "" then
    match extractModuleFromName c.name with
    | some m => c.routes.foldl (fun a r => pushKey a m r) acc
    | none => acc
  else acc

/-- The controller-direct grouping pass (lines 712–726). -/
def buildControllerChunks (controllers : List ControllerG) : Chunks :=
  controllers.foldl controllerStep []

/-- `serviceName.replace(/(Service|Controller)$/i, '').toLowerCase()` —
the base used by fallback strategy 1. -/
def serviceBase (serviceName : String) : String :=
  jsToLower (stripSuffixOnce ["Service", "Controller"] serviceName)

/-- Fallback strategy 1: first service-module entry (in discovery order)
whose base name occurs in the route's lower-cased handler; the handler must
be truthy. -/
def firstServiceMatch : List (String × String) → String → Option String
  | [], _ => none
  | (m, sn) :: t, h =>
    if h ≠ "" ∧ containsSub (jsToLower h) (serviceBase sn) then some m
    else firstServiceMatch t h

/-- The fallback module-name assignment for one route (lines 730–774):
strategy 1 (service handler match), then path `/` or empty → `app`, then
first non-parameter path segment lower-cased, then round-robin by
`floor(index / 3)` into the service-derived module names with `app` as
overflow. -/
def fallbackAssign (sm : List (String × String)) (r : UniversalRoute) (index : Nat) : String :=
  match firstServiceMatch sm r.handler with
  | some m => m
  | none =>
    if r.path = "/" ∨ r.path = "" then "app"
    else
      let pathSegments := (splitSlash r.path).filter
        (fun s => !(s == "") && !(beginsWithL s ":"))
      match pathSegments with
      | s :: _ => jsToLower s
      | [] =>
        let routeGroup := index / 3
        let moduleNames := sm.map Prod.fst
        if routeGroup < moduleNames.length then
          let n := moduleNames.getD routeGroup ""
          if n = "" then "app" else n
        else "app"

/-- The `routes.forEach((route, index) => ...)` fallback loop: assign a
module name, sanitize it, push the route under the sanitized key. -/
def fallbackChunksAux (sm : List (String × String)) :
    List UniversalRoute → Nat → Chunks → Chunks
  | [], _, acc => acc
  | r :: rs, i, acc =>
    fallbackChunksAux sm rs (i + 1)
      (pushKey acc (sanitizeModuleName (fallbackAssign sm r i)) r)

/-- The whole fallback pass (lines 729–784). -/
def fallbackChunks (sm : List (String × String)) (routes : List UniversalRoute) : Chunks :=
  fallbackChunksAux sm routes 0 []

/-- `groupRoutesByController(routes, services, controllers)` from
express-extractor.ts: build the service-module map, group by controllers,
and only when that produced no module at all run the per-route fallback. -/
def groupRoutesByController (routes : List UniversalRoute)
    (services : List ServiceG) (controllers : List ControllerG) : Chunks :=
  let serviceModules := buildServiceModules services
  let chunks := buildControllerChunks controllers
  if chunks.isEmpty then fallbackChunks serviceModules routes else chunks

/-! ## Lexical helpers for the textual route patterns (`GenericExtractor`)

The patterns are fixed regexes; for each we implement its exact matching
semantics (including the only reachable backtracking case, in `,\s*([^,)]+)`)
as a deterministic matcher on character lists. -/

/-- The single-quote character. -/
def squote : Char := Char.ofNat 39

/-- The double-quote character. -/
def dquote : Char := Char.ofNat 34

/-- The backtick character. -/
def btick : Char := Char.ofNat 96

/-- A character of the regex class matching any of the three quote kinds. -/
def isQuoteC (c : Char) : Bool :=
  c == squote || c == dquote || c == btick

/-- A character matched by `\s` (ASCII range). -/
def isSpaceJS (c : Char) : Bool :=
  c == ' ' || c == '\t' || c == '\n' || c == '\r' ||
    c == Char.ofNat 11 || c == Char.ofNat 12

/-- A character matched by `\w`. -/
def isWordC (c : Char) : Bool :=
  c.isAlphanum || c == '_'

/-- Strip an expected literal character sequence from the front. -/
def stripChars : List Char → List Char → Option (List Char)
  | [], s => some s
  | _ :: _, [] => none
  | p :: ps, c :: cs => if c = p then stripChars ps cs else none

/-- The lower-case verb alternation `(get|post|put|delete|patch)`. -/
def callVerbs : List String := ["get", "post", "put", "delete", "patch"]

/-- The decorator verb alternation `(Get|Post|Put|Delete|Patch)`. -/
def nestVerbs : List String := ["Get", "Post", "Put", "Delete", "Patch"]

/-- Match a verb alternation at the front of the text, trying alternatives
in source order (no two verbs share a prefix, so at most one can match). -/
def pickVerb : List String → List Char → Option (String × List Char)
  | [], _ => none
  | v :: vs, s =>
    match stripChars v.data s with
    | some rest => some (v, rest)
    | none => pickVerb vs s

/-- One match of a call-style pattern
`<recv>\.(get|post|put|delete|patch)\(['"`]([^'"`]+)['"`],\s*([^,)]+)`:
captured verb (group 1), path (group 2), handler text (group 3) and the
total matched length. -/
structure CallMatch where
  verb : String
  path : String
  handler : String
  len : Nat
deriving DecidableEq, Repr

/-- Try the call-style pattern anchored at the start of `s`. The char class
`[^'"`]+` is greedy and its run always ends at a quote or the end of text,
so no backtracking can revive a failed closing quote or comma; in
`,\s*([^,)]+)`, when all text after the whitespace run starts with `,` or
`)`, the engine gives one whitespace character back to the capture group —
that is the single reachable backtracking case and is modelled exactly. -/
def matchCallAt (recv : String) (s : List Char) : Option CallMatch :=
  match stripChars (recv.data ++ ['.']) s with
  | none => none
  | some s1 =>
    match pickVerb callVerbs s1 with
    | none => none
    | some (verb, s2) =>
      match s2 with
      | '(' :: q :: s4 =>
        if isQuoteC q then
          let path := s4.takeWhile (fun c => !(isQuoteC c))
          if path.isEmpty then none
          else
            match s4.drop path.length with
            | q2 :: ',' :: s7 =>
              if isQuoteC q2 then
                let ws := s7.takeWhile isSpaceJS
                let s8 := s7.drop ws.length
                let h := s8.takeWhile (fun c => !(c == ',' || c == ')'))
                if h.isEmpty then
                  if ws.isEmpty then none
                  else some { verb := verb, path := String.mk path,
                              handler := String.mk [ws.getLastD ' '],
                              len := recv.length + verb.length + path.length +
                                     ws.length + 5 }
                else some { verb := verb, path := String.mk path,
                            handler := String.mk h,
                            len := recv.length + verb.length + path.length +
                                   ws.length + h.length + 5 }
              else none
            | _ => none
        else none
      | _ => none

/-- One match of the decorator pattern
`@(Get|Post|Put|Delete|Patch)\(['"`]([^'"`]*)['"`]\)` (no handler group;
the path group may be empty). -/
structure NestMatch where
  verb : String
  path : String
  len : Nat
deriving DecidableEq, Repr

/-- Try the decorator pattern anchored at the start of `s`. -/
def matchNestAt (s : List Char) : Option NestMatch :=
  match s with
  | '@' :: s1 =>
    match pickVerb nestVerbs s1 with
    | none => none
    | some (verb, s2) =>
      match s2 with
      | '(' :: q :: s4 =>
        if isQuoteC q then
          let path := s4.takeWhile (fun c => !(isQuoteC c))
          match s4.drop path.length with
          | q2 :: ')' :: _ =>
            if isQuoteC q2 then
              some { verb := verb, path := String.mk path,
                     len := verb.length + path.length + 5 }
            else none
          | _ => none
        else none
      | _ => none
  | _ => none

/-- `RegExp.exec` in a `while` loop with the `g` flag: find leftmost
matches, resume immediately after each match (every pattern here matches at
least one character, so `lastIndex` always advances). Fuel is the text
length, which bounds the number of scanning steps. -/
def scanCallAux (recv : String) : Nat → List Char → List CallMatch
  | 0, _ => []
  | _ + 1, [] => []
  | fuel + 1, c :: rest =>
    match matchCallAt recv (c :: rest) with
    | some m => m :: scanCallAux recv fuel (rest.drop (m.len - 1))
    | none => scanCallAux recv fuel rest

/-- All matches of a call-style pattern over a file's full text. -/
def scanCall (recv : String) (text : String) : List CallMatch :=
  scanCallAux recv text.data.length text.data

/-- A decorator-pattern match together with the text following it
(`text.substring(match.index + match[0].length)`), which the extractor
searches for the decorated method's name. -/
structure NestHit where
  verb : String
  path : String
  after : List Char
deriving DecidableEq, Repr

/-- Global scan for the decorator pattern. -/
def scanNestAux : Nat → List Char → List NestHit
  | 0, _ => []
  | _ + 1, [] => []
  | fuel + 1, c :: rest =>
    match matchNestAt (c :: rest) with
    | some m =>
      { verb := m.verb, path := m.path, after := rest.drop (m.len - 1) } ::
        scanNestAux fuel (rest.drop (m.len - 1))
    | none => scanNestAux fuel rest

/-- All matches of the decorator pattern over a file's full text. -/
def scanNest (text : String) : List NestHit :=
  scanNestAux text.data.length text.data

/-! ## Handler-name resolution (`GenericExtractor.extractHandlerName`) -/

/-- First match of `/(\w+)\s*=>/`: the leftmost maximal word run followed
(after optional whitespace) by a literal `=>`. Shortening a word run only
exposes another word character where `=>` is required, so backtracking
inside the run can never succeed and whole runs can be skipped. -/
def findArrowName : Nat → List Char → Option String
  | 0, _ => none
  | _ + 1, [] => none
  | fuel + 1, c :: cs =>
    if isWordC c then
      let run := c :: cs.takeWhile isWordC
      let rest := cs.drop (run.length - 1)
      let rest2 := rest.drop (rest.takeWhile isSpaceJS).length
      match rest2 with
      | '=' :: '>' :: _ => some (String.mk run)
      | _ => findArrowName fuel (cs.drop (run.length - 1))
    else findArrowName fuel cs

/-- First match of `/<kw>\s+(\w+)/` for a literal keyword: the keyword,
at least one whitespace character, then a word run (the capture). -/
def findKwName (kw : List Char) : Nat → List Char → Option String
  | 0, _ => none
  | _ + 1, [] => none
  | fuel + 1, c :: cs =>
    match stripChars kw (c :: cs) with
    | some rest =>
      let ws := rest.takeWhile isSpaceJS
      if ws.isEmpty then findKwName kw fuel cs
      else
        let run := (rest.drop ws.length).takeWhile isWordC
        if run.isEmpty then findKwName kw fuel cs
        else some (String.mk run)
    | none => findKwName kw fuel cs

/-- `extractHandlerName(handlerCode)`: try `/(\w+)\s*=>/`, then
`/function\s+(\w+)/`, then `/async\s+(\w+)/`, else `"anonymous"` (the
captured groups are `\w+` and hence never empty, so the `|| 'anonymous'`
guards on the groups never fire). -/
def extractHandlerName (handlerCode : String) : String :=
  let cs := handlerCode.data
  match findArrowName cs.length cs with
  | some n => n
  | none =>
    match findKwName "function".data cs.length cs with
    | some n => n
    | none =>
      match findKwName "async".data cs.length cs with
      | some n => n
      | none => "anonymous"

/-- First match of `/(\w+)\s*\(/` (used on the text following a decorator
match to find the decorated method's name). -/
def findWordParen : Nat → List Char → Option String
  | 0, _ => none
  | _ + 1, [] => none
  | fuel + 1, c :: cs =>
    if isWordC c then
      let run := c :: cs.takeWhile isWordC
      let rest := cs.drop (run.length - 1)
      let rest2 := rest.drop (rest.takeWhile isSpaceJS).length
      match rest2 with
      | '(' :: _ => some (String.mk run)
      | _ => findWordParen fuel (cs.drop (run.length - 1))
    else findWordParen fuel cs

/-! ## The pattern list and `GenericExtractor.extractRoutes` -/

/-- The four distinct regexes of the `routePatterns` array. The Koa entry
is textually identical to the Express `router` entry; the array lists it
twice (see `routePatterns`). -/
inductive PatKind
  | appP
  | routerP
  | nestP
  | fastifyP
deriving DecidableEq, Repr

/-- The `routePatterns` array in source order: Express `app`, Express
`router`, NestJS decorator, Fastify, Koa `router` (a second copy of the
`router` regex). -/
def routePatterns : List PatKind :=
  [PatKind.appP, PatKind.routerP, PatKind.nestP, PatKind.fastifyP, PatKind.routerP]

/-- `pattern.toString()` for each regex, as written in the source. -/
def patternSource : PatKind → String
  | PatKind.appP =>
    "/app\\.(get|post|put|delete|patch)\\([\x27\"\x60]([^\x27\"\x60]+)[\x27\"\x60],\\s*([^,)]+)/g"
  | PatKind.routerP =>
    "/router\\.(get|post|put|delete|patch)\\([\x27\"\x60]([^\x27\"\x60]+)[\x27\"\x60],\\s*([^,)]+)/g"
  | PatKind.nestP =>
    "/@(Get|Post|Put|Delete|Patch)\\([\x27\"\x60]([^\x27\"\x60]*)[\x27\"\x60]\\)/g"
  | PatKind.fastifyP =>
    "/fastify\\.(get|post|put|delete|patch)\\([\x27\"\x60]([^\x27\"\x60]+)[\x27\"\x60],\\s*([^,)]+)/g"

/-- `detectFrameworkFromPattern`: decide the framework tag from substring
tests on the regex source text. -/
def detectFrameworkFromPattern (p : PatKind) : String :=
  let patternStr := patternSource p
  if containsSub patternStr "@(Get|Post" then "nestjs"
  else if containsSub patternStr "fastify" then "fastify"
  else if containsSub patternStr "router" then "koa"
  else "express"

/-- `extractRouteParameters(handler)`: the fixed three-parameter shape
assigned to every pattern match regardless of its handler text. -/
def extractRouteParameters (_handler : String) : List Parameter :=
  [{ name := "req", type := "Request", optional := false, decorator := none },
   { name := "res", type := "Response", optional := false, decorator := none },
   { name := "next", type := "NextFunction", optional := true, decorator := none }]

/-- `extractMethod`: `match[1]?.toUpperCase() || 'GET'` (the fallback is
unreachable for these patterns, whose group 1 is a non-empty verb). -/
def upMethod (verb : String) : String :=
  let u := jsToUpper verb
  if u = "" then "GET" else u

/-- `extractPath`: `match[2] || '/'` (reachable for the decorator pattern,
whose path group may be empty). -/
def orSlash (path : String) : String :=
  if path = "" then "/" else path

/-- Build the `UniversalRoute` pushed for one call-style match:
`extractHandler` goes through `extractHandlerName` on group 3, middleware
extraction is a stub returning `[]`, and the parameters are the fixed
shape. The `if (method && path)` guard always holds (both have truthy
fallbacks), so every match produces a route. -/
def mkCallRoute (fw : String) (m : CallMatch) : UniversalRoute :=
  let handler := extractHandlerName m.handler
  { path := orSlash m.path
    method := upMethod m.verb
    handler := handler
    middleware := []
    parameters := extractRouteParameters handler
    framework := fw }

/-- `extractHandler` for a decorator match (no group 3): search the text
after the match for `/(\w+)\s*\(/` and use its group, else `"anonymous"`. -/
def nestHandler (hit : NestHit) : String :=
  match findWordParen hit.after.length hit.after with
  | some n => n
  | none => "anonymous"

/-- Build the `UniversalRoute` pushed for one decorator match. -/
def mkNestRoute (fw : String) (hit : NestHit) : UniversalRoute :=
  let handler := nestHandler hit
  { path := orSlash hit.path
    method := upMethod hit.verb
    handler := handler
    middleware := []
    parameters := extractRouteParameters handler
    framework := fw }

/-- The routes produced by one pattern of the array, scanning the full
file text from the start. -/
def runPattern (p : PatKind) (text : String) : List UniversalRoute :=
  match p with
  | PatKind.appP => (scanCall "app" text).map (mkCallRoute (detectFrameworkFromPattern PatKind.appP))
  | PatKind.routerP => (scanCall "router" text).map (mkCallRoute (detectFrameworkFromPattern PatKind.routerP))
  | PatKind.nestP => (scanNest text).map (mkNestRoute (detectFrameworkFromPattern PatKind.nestP))
  | PatKind.fastifyP => (scanCall "fastify" text).map (mkCallRoute (detectFrameworkFromPattern PatKind.fastifyP))

/-- `GenericExtractor.extractRoutes(sourceFile)`: run every pattern of the
array (the `router` regex twice) over the same full text and concatenate
the routes in pattern order. -/
def extractRoutes (text : String) : List UniversalRoute :=
  (routePatterns.map (fun p => runPattern p text)).flatten

/-! ## Declaration-based extraction (`GenericExtractor`, ts-morph side) -/

/-- A decorator as the extractor reads it: its name and the source texts of
its arguments (`getArguments()[i].getText()`, quotes included). -/
structure Decorator where
  name : String
  args : List String
deriving DecidableEq, Repr

/-- A declared method parameter: name, declared type text (if any),
question-token flag, decorators. -/
structure ParamDecl where
  name : String
  typeText : Option String
  optional : Bool
  decorators : List Decorator
deriving DecidableEq, Repr

/-- A class method declaration as read by the extractor. -/
structure MethodDecl where
  name : String
  decorators : List Decorator
  params : List ParamDecl
deriving DecidableEq, Repr

/-- A class declaration as read by the extractor (`getName()` may be
undefined). -/
structure ClassDecl where
  name : Option String
  decorators : List Decorator
  methods : List MethodDecl
deriving DecidableEq, Repr

/-- The fixed route-decorator name set of `isRouteMethod` and
`extractRouteFromMethod`. -/
def routeDecoratorNames : List String :=
  ["Get", "Post", "Put", "Delete", "Patch", "All"]

/-- `isRouteMethod(method)`: the method carries a decorator from the fixed
set. -/
def isRouteMethod (m : MethodDecl) : Bool :=
  m.decorators.any (fun d => routeDecoratorNames.contains d.name)

/-- `text.replace(/['"]/g, '')`: remove every single and double quote. -/
def stripQuotes (s : String) : String :=
  String.mk (s.data.filter (fun c => !(c == squote || c == dquote)))

/-- The route path read from the route decorator:
`args.length > 0 ? args[0]?.getText().replace(/['"]/g, '') || '/' : '/'`. -/
def decoratorRoutePath (d : Decorator) : String :=
  match d.args with
  | [] => "/"
  | a :: _ => let t := stripQuotes a; if t = "" then "/" else t

/-- The base path read from the class's `Controller` decorator:
empty when the decorator or its first argument is absent. -/
def controllerBasePath (c : ClassDecl) : String :=
  match c.decorators.find? (fun d => d.name == "Controller") with
  | none => ""
  | some cd =>
    match cd.args with
    | [] => ""
    | a :: _ => stripQuotes a

/-- The path combination of `extractRouteFromMethod`:
`basePath ? `/${basePath}${routePath === '/' ? '' : '/' + routePath.replace(/^\//, '')}` : routePath`. -/
def composeFullPath (basePath routePath : String) : String :=
  if basePath ≠ "" then
    "/" ++ basePath ++
      (if routePath = "/" then ""
       else "/" ++ (if beginsWithL routePath "/" then routePath.drop 1 else routePath))
  else routePath

/-- `getParameterDecorator(param)`: the first decorator's name, if any. -/
def paramDecoratorName (p : ParamDecl) : Option String :=
  match p.decorators with
  | [] => none
  | d :: _ => some d.name

/-- `extractRouteFromMethod(method, classDecl)`: find the first route
decorator, upper-case its name as the HTTP method, combine the class base
path with the decorator path, and read the declared parameter list. -/
def extractRouteFromMethod (m : MethodDecl) (c : ClassDecl) : Option UniversalRoute :=
  match m.decorators.find? (fun d => routeDecoratorNames.contains d.name) with
  | none => none
  | some routeDecorator =>
    let methodName := jsToUpper routeDecorator.name
    let routePath := decoratorRoutePath routeDecorator
    let basePath := controllerBasePath c
    let fullPath := composeFullPath basePath routePath
    some { path := fullPath
           method := methodName
           handler := m.name
           middleware := []
           parameters := m.params.map (fun p =>
             { name := p.name
               type := p.typeText.getD "any"
               optional := p.optional
               decorator := paramDecoratorName p })
           framework := "nestjs" }

/-- `isControllerClass(classDecl)`: a `Controller` decorator, or a name
that (case-insensitively) contains or ends with `controller`. -/
def isControllerClass (c : ClassDecl) : Bool :=
  let name := jsToLower (c.name.getD "")
  c.decorators.any (fun d => d.name == "Controller")
    || containsSub name "controller" || endsWithL name "controller"

/-- JavaScript `s || d` on strings: `d` when `s` is empty. -/
def jsOrS (s d : String) : String :=
  if s = "" then d else s

/-- The controller built from one class, if any: only classes passing
`isControllerClass` and owning at least one extracted route are emitted. -/
def controllerOfClass (cd : ClassDecl) : Option ControllerG :=
  if isControllerClass cd then
    let routes := cd.methods.filterMap
      (fun m => if isRouteMethod m then extractRouteFromMethod m cd else none)
    if routes.isEmpty then none
    else some { name := jsOrS (cd.name.getD "") "AnonymousController", routes := routes }
  else none

/-- `extractControllers(sourceFile)` over the file's class list. -/
def extractControllersFromClasses (classes : List ClassDecl) : List ControllerG :=
  classes.filterMap controllerOfClass

/-- One source file as the extractor sees it: raw full text plus parsed
class declarations. -/
structure SrcFile where
  text : String
  classes : List ClassDecl
deriving DecidableEq, Repr

/-- The controllers extracted from one file. -/
def extractControllers (f : SrcFile) : List ControllerG :=
  extractControllersFromClasses f.classes

/-- The route portion of `extractAll` for one file: the controllers'
routes, flattened in controller order, followed by the pattern-scan routes
of the same file's raw text — appended, never de-duplicated. -/
def extractAllRoutes (f : SrcFile) : List UniversalRoute :=
  ((extractControllers f).map ControllerG.routes).flatten ++ extractRoutes f.text

/-! ## Concrete sample inputs used by witnesses and counterexamples -/

/-- A plain route used as grouping input. -/
def c1Route : UniversalRoute :=
  { path := "/users", method := "GET", handler := "getUsers",
    middleware := [], parameters := [], framework := "express" }

/-- A route not owned by any controller. -/
def c1Stray : UniversalRoute :=
  { path := "/stray", method := "GET", handler := "stray",
    middleware := [], parameters := [], framework := "express" }

/-- A controller owning one route. -/
def c1Ctrl : ControllerG := { name := "UsersController", routes := [c1Route] }

/-- A route grouped under a controller whose name contains a space. -/
def c2Route : UniversalRoute :=
  { path := "/t", method := "GET", handler := "h",
    middleware := [], parameters := [], framework := "express" }

/-- A controller whose derived module name keeps its space:
`"My Controller"` → strip `Controller` → `"My "` → `"my s"`. -/
def c2Ctrl : ControllerG := { name := "My Controller", routes := [c2Route] }

/-- A route whose fallback module name needs sanitizing (first path
segment `"a b"`). -/
def c2FallbackRoute : UniversalRoute :=
  { path := "/a b/x", method := "GET", handler := "",
    middleware := [], parameters := [], framework := "express" }

/-- A route whose path consists only of parameter segments. -/
def c3Route (i : Nat) : UniversalRoute :=
  { path := "/:id", method := "GET", handler := "h" ++ toString i,
    middleware := [], parameters := [], framework := "express" }

/-- Seven pathless (parameter-only) routes, as in the round-robin claim. -/
def c3Routes : List UniversalRoute :=
  [c3Route 0, c3Route 1, c3Route 2, c3Route 3, c3Route 4, c3Route 5, c3Route 6]

/-- A `@Get(':id')`-style route decorator (argument text keeps its
quotes, as `getText()` returns it). -/
def c5GetDec : Decorator := { name := "Get", args := ["\x27/:id\x27"] }

/-- A controller method carrying the sample route decorator. -/
def c5Method : MethodDecl := { name := "getUser", decorators := [c5GetDec], params := [] }

/-- A class with `@Controller('users')`. -/
def c5Class : ClassDecl :=
  { name := some "UsersController",
    decorators := [{ name := "Controller", args := ["\x27users\x27"] }],
    methods := [c5Method] }

/-- The route `extractRouteFromMethod` builds from the sample method. -/
def c5Route : UniversalRoute :=
  { path := "/users/:id", method := "GET", handler := "getUser",
    middleware := [], parameters := [], framework := "nestjs" }

/-- A file containing one `app`-style call registration and one decorator
registration for the same endpoint, and no controller classes. -/
def c6File : SrcFile :=
  { text := "app.get(\x27/users\x27, getUsers)\n@Get(\x27/users\x27)\ngetUsers() \x7b\x7d",
    classes := [] }

/-- A controller class whose only route method carries `@All`. -/
def c8Class : ClassDecl :=
  { name := some "TasksController",
    decorators := [{ name := "Controller", args := [] }],
    methods := [{ name := "doAll", decorators := [{ name := "All", args := [] }], params := [] }] }

/-- A file whose extraction yields exactly one route, with method `ALL`. -/
def c8File : SrcFile := { text := "", classes := [c8Class] }

/-- The route extracted from `c8File`. -/
def c8Route : UniversalRoute :=
  { path := "/", method := "ALL", handler := "doAll",
    middleware := [], parameters := [], framework := "nestjs" }

/-- A text with a single `router`-style registration. -/
def c10Text : String := "router.get(\x27/a\x27, h => h)"

/-- The route each copy of the `router` pattern produces for `c10Text`. -/
def c10Route : UniversalRoute :=
  { path := "/a", method := "GET", handler := "h",
    middleware := [], parameters := extractRouteParameters "h", framework := "koa" }

/-- A text with a single `app`-style match whose handler is an arrow
function. -/
def c9Text : String := "app.get(\x27/u\x27, f => f)"

/-- The route the pattern scan produces for `c9Text`. -/
def c9Route : UniversalRoute :=
  { path := "/u", method := "GET", handler := "f",
    middleware := [], parameters := extractRouteParameters "f", framework := "express" }

/-! ## Helper lemmas -/

/-- Evaluating the suffix search of `stripSuffixOnce` on the literal
seven-element suffix list. -/
theorem stripSuffix_eval (name : String) :
    stripSuffixOnce moduleSuffixes name =
      (if endsWithL (jsToLower name) "service" then name.dropRight 7
       else if endsWithL (jsToLower name) "controller" then name.dropRight 10
       else if endsWithL (jsToLower name) "dto" then name.dropRight 3
       else if endsWithL (jsToLower name) "entity" then name.dropRight 6
       else if endsWithL (jsToLower name) "model" then name.dropRight 5
       else if endsWithL (jsToLower name) "type" then name.dropRight 4
       else if endsWithL (jsToLower name) "interface" then name.dropRight 9
       else name) := by
  unfold stripSuffixOnce moduleSuffixes
  simp only [List.find?]
  rw [show jsToLower "Service" = "service" by decide,
      show jsToLower "Controller" = "controller" by decide,
      show jsToLower "Dto" = "dto" by decide,
      show jsToLower "Entity" = "entity" by decide,
      show jsToLower "Model" = "model" by decide,
      show jsToLower "Type" = "type" by decide,
      show jsToLower "Interface" = "interface" by decide]
  cases h1 : endsWithL (jsToLower name) "service" <;>
    cases h2 : endsWithL (jsToLower name) "controller" <;>
      cases h3 : endsWithL (jsToLower name) "dto" <;>
        cases h4 : endsWithL (jsToLower name) "entity" <;>
          cases h5 : endsWithL (jsToLower name) "model" <;>
            cases h6 : endsWithL (jsToLower name) "type" <;>
              cases h7 : endsWithL (jsToLower name) "interface" <;>
                simp [h1, h2, h3, h4, h5, h6, h7,
                  show ("Service" : String).length = 7 by decide,
                  show ("Controller" : String).length = 10 by decide,
                  show ("Dto" : String).length = 3 by decide,
                  show ("Entity" : String).length = 6 by decide,
                  show ("Model" : String).length = 5 by decide,
                  show ("Type" : String).length = 4 by decide,
                  show ("Interface" : String).length = 9 by decide]

/-- The source derivation and the spec-worded derivation agree on every
name. -/
theorem extractModuleFromName_eq_spec (name : String) :
    extractModuleFromName name = deriveModuleNameSpec name := by
  unfold extractModuleFromName deriveModuleNameSpec
  by_cases h0 : name = ""
  · simp [h0]
  · rw [if_neg h0, if_neg h0, stripSuffix_eval]

/-! ## Claim C4 -/

/-- C4: for every name string, the module-name derivation function strips
one case-insensitive suffix from {Service, Controller, Dto, Entity, Model,
Type, Interface} if present at the end, lower-cases the remainder, then
pluralizes (trailing `y` becomes `ies`, a name already ending in `s` is
unchanged, otherwise `s` is appended); `"UsersService"` yields `"users"`,
`"CompanyService"` yields `"companies"`, `"OrderController"` yields
`"orders"`, and the empty string yields no candidate. -/
theorem derive_module_name_c4 :
    (∀ name : String, extractModuleFromName name = deriveModuleNameSpec name)
    ∧ extractModuleFromName "UsersService" = some "users"
    ∧ extractModuleFromName "CompanyService" = some "companies"
    ∧ extractModuleFromName "OrderController" = some "orders"
    ∧ extractModuleFromName "" = none :=
  ⟨extractModuleFromName_eq_spec, by decide, by decide, by decide, by decide⟩

/-- The path of every route built by `extractRouteFromMethod` is the
composition of the class base path and the found route decorator's path. -/
theorem extractRouteFromMethod_path (m : MethodDecl) (c : ClassDecl)
    (r : UniversalRoute) (d : Decorator)
    (hd : m.decorators.find? (fun d => routeDecoratorNames.contains d.name) = some d)
    (hr : extractRouteFromMethod m c = some r) :
    r.path = composeFullPath (controllerBasePath c) (decoratorRoutePath d) := by
  unfold extractRouteFromMethod at hr
  rw [hd] at hr
  cases hr
  rfl

/-! ## Claim C5 -/

/-- C5: for every route method extracted from a controller class, with
non-empty base path `b` and method-annotation path `p` the final path is
`"/" ++ b` followed by nothing if `p = "/"` and by `"/" ++ p` with one
leading slash stripped otherwise; with empty base path the final path is
`p` unchanged; base `"users"` with method path `"/:id"` gives
`"/users/:id"`, and base `""` with method path `"/"` gives `"/"`. -/
theorem path_composition_c5 :
    (∀ (m : MethodDecl) (c : ClassDecl) (r : UniversalRoute) (d : Decorator),
        m.decorators.find? (fun d => routeDecoratorNames.contains d.name) = some d →
        extractRouteFromMethod m c = some r →
        r.path = composeFullPath (controllerBasePath c) (decoratorRoutePath d))
    ∧ (∀ b p : String, b ≠ "" →
        composeFullPath b p =
          "/" ++ b ++ (if p = "/" then "" else "/" ++ (if beginsWithL p "/" then p.drop 1 else p)))
    ∧ (∀ p : String, composeFullPath "" p = p)
    ∧ composeFullPath "users" "/:id" = "/users/:id"
    ∧ composeFullPath "" "/" = "/" := by
  refine ⟨extractRouteFromMethod_path, ?_, ?_, by decide, by decide⟩
  · intro b p hb
    simp [composeFullPath, hb]
  · intro p
    simp [composeFullPath]

/-- Witness for C5 at the sample `@Controller('users')` class and
`@Get('/:id')` method. -/
theorem path_composition_c5_witness :
    c5Route.path = composeFullPath (controllerBasePath c5Class) (decoratorRoutePath c5GetDec) :=
  path_composition_c5.1 c5Method c5Class c5Route c5GetDec (by decide) (by decide)

/-! ## Claim C7 -/

/-- C7 counterexample: the handler text `const getUsers = (req,res) => {}`
resolves to `"anonymous"`, not `"getUsers"` — no word-character run
immediately precedes `=>` (a `)` intervenes), so the arrow regex finds
nothing, and no `function`/`async` keyword is present. The same holds
through the full call-style pipeline (where the captured handler group
stops even earlier, at the first comma). -/
theorem handler_name_c7_counterexample :
    extractHandlerName "const getUsers = (req,res) => \x7b\x7d" = "anonymous"
    ∧ (extractRoutes "app.get(\x27/users\x27, const getUsers = (req,res) => \x7b\x7d)").map
        UniversalRoute.handler = ["anonymous"]
    ∧ "anonymous" ≠ "getUsers" :=
  ⟨by decide, by decide, by decide⟩

/-- C7 (amended): handler-name resolution tries, in order, (a) a word run
immediately (modulo whitespace) before `=>`, (b) `function` followed by a
name, (c) `async` followed by a name, and otherwise returns `"anonymous"`;
a directly arrow-bound name such as `getUsers => ...` resolves to
`getUsers`, while the assignment text `const getUsers = (req,res) => {}`
and any unrecognized inline expression resolve to `"anonymous"`. -/
theorem handler_name_c7 :
    (∀ code : String,
        extractHandlerName code =
          (match findArrowName code.data.length code.data with
           | some n => n
           | none =>
             match findKwName "function".data code.data.length code.data with
             | some n => n
             | none =>
               match findKwName "async".data code.data.length code.data with
               | some n => n
               | none => "anonymous"))
    ∧ extractHandlerName "getUsers => res.send(users)" = "getUsers"
    ∧ extractHandlerName "function handleUsers(req, res)" = "handleUsers"
    ∧ extractHandlerName "async handleAll (req)" = "handleAll"
    ∧ extractHandlerName "const getUsers = (req,res) => \x7b\x7d" = "anonymous"
    ∧ extractHandlerName "(req" = "anonymous" :=
  ⟨fun _ => rfl, by decide, by decide, by decide, by decide, by decide⟩

/-! ## Claim C9 -/

/-- Every route built by `runPattern` carries the parameter list produced
by `extractRouteParameters` on its handler. -/
theorem mem_runPattern_parameters {p : PatKind} {text : String} {r : UniversalRoute}
    (h : r ∈ runPattern p text) :
    r.parameters = extractRouteParameters r.handler := by
  cases p <;>
    · rcases List.mem_map.mp h with ⟨m, _, rfl⟩
      rfl

/-- C9: every call-style pattern match is assigned the fixed
three-parameter shape — `(req : Request)` required, `(res : Response)`
required, `(next : NextFunction)` optional — independent of the captured
handler text. -/
theorem fixed_parameters_c9 :
    (∀ h : String, extractRouteParameters h =
        [{ name := "req", type := "Request", optional := false, decorator := none },
         { name := "res", type := "Response", optional := false, decorator := none },
         { name := "next", type := "NextFunction", optional := true, decorator := none }])
    ∧ (∀ (p : PatKind) (text : String) (r : UniversalRoute),
        (p = PatKind.appP ∨ p = PatKind.routerP ∨ p = PatKind.fastifyP) →
        r ∈ runPattern p text →
        r.parameters =
          [{ name := "req", type := "Request", optional := false, decorator := none },
           { name := "res", type := "Response", optional := false, decorator := none },
           { name := "next", type := "NextFunction", optional := true, decorator := none }]) := by
  refine ⟨fun _ => rfl, ?_⟩
  intro p text r _ hr
  rw [mem_runPattern_parameters hr]
  rfl

/-- Witness for C9 at a concrete `app`-style registration with an arrow
handler. -/
theorem fixed_parameters_c9_witness :
    c9Route.parameters =
      [{ name := "req", type := "Request", optional := false, decorator := none },
       { name := "res", type := "Response", optional := false, decorator := none },
       { name := "next", type := "NextFunction", optional := true, decorator := none }] :=
  fixed_parameters_c9.2 PatKind.appP c9Text c9Route (Or.inl rfl) (by decide)

/-! ## Verb provenance of the scanners -/

/-- A verb returned by `pickVerb` comes from the alternation list. -/
theorem pickVerb_mem {vs : List String} {s : List Char} {v : String} {rest : List Char}
    (h : pickVerb vs s = some (v, rest)) : v ∈ vs := by
  induction vs with
  | nil => simp [pickVerb] at h
  | cons w ws ih =>
    rw [pickVerb] at h
    cases hw : stripChars w.data s with
    | some r => rw [hw] at h; cases h; exact List.mem_cons_self _ _
    | none => rw [hw] at h; exact List.mem_cons_of_mem _ (ih h)

/-- A call-style match's verb is one of the five lower-case verbs. -/
theorem matchCallAt_verb {recv : String} {s : List Char} {m : CallMatch}
    (h : matchCallAt recv s = some m) : m.verb ∈ callVerbs := by
  unfold matchCallAt at h
  simp only [] at h
  repeat' split at h
  all_goals first
    | exact Option.noConfusion h
    | (cases h; exact pickVerb_mem (by assumption))

/-- A decorator match's verb is one of the five capitalized verbs. -/
theorem matchNestAt_verb {s : List Char} {m : NestMatch}
    (h : matchNestAt s = some m) : m.verb ∈ nestVerbs := by
  unfold matchNestAt at h
  simp only [] at h
  repeat' split at h
  all_goals first
    | exact Option.noConfusion h
    | (cases h; exact pickVerb_mem (by assumption))

/-- Every element of a call-style scan arises from `matchCallAt`. -/
theorem scanCallAux_match {recv : String} {m : CallMatch} :
    ∀ {fuel : Nat} {cs : List Char}, m ∈ scanCallAux recv fuel cs →
      ∃ s, matchCallAt recv s = some m := by
  intro fuel
  induction fuel with
  | zero => intro cs h; simp [scanCallAux] at h
  | succ n ih =>
    intro cs h
    cases cs with
    | nil => simp [scanCallAux] at h
    | cons c rest =>
      rw [scanCallAux] at h
      cases hm : matchCallAt recv (c :: rest) with
      | some mm =>
        rw [hm] at h
        rcases List.mem_cons.mp h with rfl | h
        · exact ⟨c :: rest, hm⟩
        · exact ih h
      | none =>
        rw [hm] at h
        exact ih h

/-- Every element of a decorator scan arises from `matchNestAt`. -/
theorem scanNestAux_match {hit : NestHit} :
    ∀ {fuel : Nat} {cs : List Char}, hit ∈ scanNestAux fuel cs →
      ∃ s mm, matchNestAt s = some mm ∧ hit.verb = mm.verb ∧ hit.path = mm.path := by
  intro fuel
  induction fuel with
  | zero => intro cs h; simp [scanNestAux] at h
  | succ n ih =>
    intro cs h
    cases cs with
    | nil => simp [scanNestAux] at h
    | cons c rest =>
      rw [scanNestAux] at h
      cases hm : matchNestAt (c :: rest) with
      | some mm =>
        rw [hm] at h
        rcases List.mem_cons.mp h with rfl | h
        · exact ⟨c :: rest, mm, hm, rfl, rfl⟩
        · exact ih h
      | none =>
        rw [hm] at h
        exact ih h

/-- Upper-casing a call verb lands in the five-value method set. -/
theorem upMethod_call {v : String} (hv : v ∈ callVerbs) :
    upMethod v ∈ ["GET", "POST", "PUT", "DELETE", "PATCH"] := by
  fin_cases hv <;> decide

/-- Upper-casing a decorator verb lands in the five-value method set. -/
theorem upMethod_nest {v : String} (hv : v ∈ nestVerbs) :
    upMethod v ∈ ["GET", "POST", "PUT", "DELETE", "PATCH"] := by
  fin_cases hv <;> decide

/-- A route of the pattern scan comes from one of the five array
entries. -/
theorem mem_extractRoutes {text : String} {r : UniversalRoute}
    (h : r ∈ extractRoutes text) : ∃ p ∈ routePatterns, r ∈ runPattern p text := by
  unfold extractRoutes at h
  rw [List.mem_flatten] at h
  rcases h with ⟨l, hl, hr⟩
  rcases List.mem_map.mp hl with ⟨p, hp, rfl⟩
  exact ⟨p, hp, hr⟩

/-- Every single-pattern route's method is among the five upper-case
verbs. -/
theorem runPattern_method_five {p : PatKind} {text : String} {r : UniversalRoute}
    (h : r ∈ runPattern p text) :
    r.method ∈ ["GET", "POST", "PUT", "DELETE", "PATCH"] := by
  cases p with
  | appP =>
    rcases List.mem_map.mp h with ⟨mm, hmm, rfl⟩
    rcases scanCallAux_match hmm with ⟨s, hs⟩
    exact upMethod_call (matchCallAt_verb hs)
  | routerP =>
    rcases List.mem_map.mp h with ⟨mm, hmm, rfl⟩
    rcases scanCallAux_match hmm with ⟨s, hs⟩
    exact upMethod_call (matchCallAt_verb hs)
  | fastifyP =>
    rcases List.mem_map.mp h with ⟨mm, hmm, rfl⟩
    rcases scanCallAux_match hmm with ⟨s, hs⟩
    exact upMethod_call (matchCallAt_verb hs)
  | nestP =>
    rcases List.mem_map.mp h with ⟨hit, hhit, rfl⟩
    rcases scanNestAux_match hhit with ⟨s, mm, hs, hv, _⟩
    have := upMethod_nest (matchNestAt_verb hs)
    simpa [mkNestRoute, hv] using this

/-- Every pattern-scan route's method is among the five upper-case
verbs. -/
theorem extractRoutes_method_five {text : String} {r : UniversalRoute}
    (h : r ∈ extractRoutes text) :
    r.method ∈ ["GET", "POST", "PUT", "DELETE", "PATCH"] := by
  rcases mem_extractRoutes h with ⟨p, _, hr⟩
  exact runPattern_method_five hr

/-- A route built from a decorated method has a method from the six-name
decorator set, upper-cased. -/
theorem extractRouteFromMethod_method {m : MethodDecl} {c : ClassDecl} {r : UniversalRoute}
    (h : extractRouteFromMethod m c = some r) :
    r.method ∈ ["GET", "POST", "PUT", "DELETE", "PATCH", "ALL"] := by
  unfold extractRouteFromMethod at h
  cases hd : m.decorators.find? (fun d => routeDecoratorNames.contains d.name) with
  | none => rw [hd] at h; cases h
  | some d =>
    rw [hd] at h
    simp only [] at h
    cases h
    have hname : d.name = "Get" ∨ d.name = "Post" ∨ d.name = "Put" ∨
        d.name = "Delete" ∨ d.name = "Patch" ∨ d.name = "All" := by
      have hp := List.find?_some hd
      simpa [routeDecoratorNames, List.contains, List.elem_eq_mem] using hp
    show jsToUpper d.name ∈ ["GET", "POST", "PUT", "DELETE", "PATCH", "ALL"]
    rcases hname with h | h | h | h | h | h <;> rw [h] <;> decide

/-- A route owned by an extracted controller has a method from the
six-value set. -/
theorem controllerOfClass_method {cd : ClassDecl} {ctrl : ControllerG} {r : UniversalRoute}
    (hc : controllerOfClass cd = some ctrl) (hr : r ∈ ctrl.routes) :
    r.method ∈ ["GET", "POST", "PUT", "DELETE", "PATCH", "ALL"] := by
  unfold controllerOfClass at hc
  split at hc
  · simp only [] at hc
    split at hc
    · cases hc
    · cases hc
      rcases List.mem_filterMap.mp hr with ⟨mth, _, hsome⟩
      split at hsome
      · exact extractRouteFromMethod_method hsome
      · cases hsome
  · cases hc

/-- Every route of a file's extraction has a method from the six-value
set. -/
theorem extractAllRoutes_method {f : SrcFile} {r : UniversalRoute}
    (h : r ∈ extractAllRoutes f) :
    r.method ∈ ["GET", "POST", "PUT", "DELETE", "PATCH", "ALL"] := by
  unfold extractAllRoutes at h
  rcases List.mem_append.mp h with h | h
  · rw [List.mem_flatten] at h
    rcases h with ⟨l, hl, hr⟩
    rcases List.mem_map.mp hl with ⟨ctrl, hctrl, rfl⟩
    rcases List.mem_filterMap.mp hctrl with ⟨cd, _, hc⟩
    exact controllerOfClass_method hc hr
  · have h5 := extractRoutes_method_five h
    simp only [List.mem_cons, List.not_mem_nil, or_false] at h5 ⊢
    tauto

/-! ## Claim C8 -/

/-- C8 counterexample: a controller method decorated `@All` yields a route
whose method is `"ALL"`, which is outside the claimed five-value set. -/
theorem method_enum_c8_counterexample :
    (extractAllRoutes c8File).map UniversalRoute.method = ["ALL"]
    ∧ "ALL" ∉ ["GET", "POST", "PUT", "DELETE", "PATCH"] :=
  ⟨by decide, by decide⟩

/-- C8 (amended): every extracted route's method is one of the upper-cased
strings GET, POST, PUT, DELETE, PATCH, ALL; routes from the pattern scan
are always among the first five, and `ALL` can arise only from an `@All`
controller method. -/
theorem method_enum_c8 :
    (∀ (f : SrcFile) (r : UniversalRoute), r ∈ extractAllRoutes f →
        r.method ∈ ["GET", "POST", "PUT", "DELETE", "PATCH", "ALL"])
    ∧ (∀ (text : String) (r : UniversalRoute), r ∈ extractRoutes text →
        r.method ∈ ["GET", "POST", "PUT", "DELETE", "PATCH"]) :=
  ⟨fun _ _ h => extractAllRoutes_method h, fun _ _ h => extractRoutes_method_five h⟩

/-- Witness for the amended C8 at the `@All` sample file. -/
theorem method_enum_c8_witness :
    c8Route.method ∈ ["GET", "POST", "PUT", "DELETE", "PATCH", "ALL"] :=
  method_enum_c8.1 c8File c8Route (by decide)

/-! ## Claim C6 -/

/-- The pattern scan's output length is the sum of the five per-pattern
match counts — the `router` count entering twice. -/
theorem extractRoutes_length (text : String) :
    (extractRoutes text).length =
      (scanCall "app" text).length + (scanCall "router" text).length +
      (scanNest text).length + (scanCall "fastify" text).length +
      (scanCall "router" text).length := by
  simp only [extractRoutes, routePatterns, List.map_cons, List.map_nil,
    List.flatten_cons, List.flatten_nil, List.length_append, runPattern,
    List.length_map, List.length_nil]
  omega

/-- C6: a file containing exactly one `app`-style call registration and,
separately, exactly one decorator registration (and no `router`/`fastify`
matches and no controller classes) yields 2 route records — the
declaration-based and pattern-based sources are concatenated with no
de-duplication. -/
theorem no_dedup_c6 (f : SrcFile)
    (happ : (scanCall "app" f.text).length = 1)
    (hrouter : (scanCall "router" f.text).length = 0)
    (hfastify : (scanCall "fastify" f.text).length = 0)
    (hnest : (scanNest f.text).length = 1)
    (hctrl : extractControllers f = []) :
    (extractAllRoutes f).length = 2 := by
  unfold extractAllRoutes
  rw [hctrl]
  simp only [List.map_nil, List.flatten_nil, List.nil_append]
  rw [extractRoutes_length, happ, hrouter, hfastify, hnest]

/-- Witness for C6 at a file holding one call-style and one
annotation-style registration of the same endpoint. -/
theorem no_dedup_c6_witness :
    (scanCall "app" c6File.text).length = 1
    ∧ (scanCall "router" c6File.text).length = 0
    ∧ (scanCall "fastify" c6File.text).length = 0
    ∧ (scanNest c6File.text).length = 1
    ∧ extractControllers c6File = []
    ∧ (extractAllRoutes c6File).length = 2 :=
  ⟨by decide, by decide, by decide, by decide, by decide,
   no_dedup_c6 c6File (by decide) (by decide) (by decide) (by decide) (by decide)⟩

/-! ## Claim C10 -/

/-- Every route built from one pattern carries that pattern's detected
framework tag. -/
theorem runPattern_framework {p : PatKind} {text : String} {r : UniversalRoute}
    (h : r ∈ runPattern p text) : r.framework = detectFrameworkFromPattern p := by
  cases p <;>
    · rcases List.mem_map.mp h with ⟨m, _, rfl⟩
      rfl

/-- C10: the `router` regex occurs at two positions of the ordered pattern
list, so every `router.<verb>(...)` substring is emitted twice, and — since
the pattern's source contains `router` — both copies are tagged `koa`,
never `express`. -/
theorem router_twice_c10 :
    routePatterns.count PatKind.routerP = 2
    ∧ containsSub (patternSource PatKind.routerP) "router" = true
    ∧ detectFrameworkFromPattern PatKind.routerP = "koa"
    ∧ detectFrameworkFromPattern PatKind.routerP ≠ "express"
    ∧ (∀ text : String,
        extractRoutes text =
          runPattern PatKind.appP text ++ runPattern PatKind.routerP text ++
          runPattern PatKind.nestP text ++ runPattern PatKind.fastifyP text ++
          runPattern PatKind.routerP text)
    ∧ (∀ (text : String) (r : UniversalRoute),
        r ∈ runPattern PatKind.routerP text → r.framework = "koa") := by
  refine ⟨by decide, by decide, by decide, by decide, ?_, ?_⟩
  · intro text
    simp [extractRoutes, routePatterns, List.append_assoc]
  · intro text r h
    rw [runPattern_framework h]
    decide

/-- Witness for C10 at a concrete `router`-style registration. -/
theorem router_twice_c10_witness : c10Route.framework = "koa" :=
  router_twice_c10.2.2.2.2.2 c10Text c10Route (by decide)

/-! ## Grouping: pushKey / chunkAt / membership lemmas, Claims C1, C2, C3 -/

/-- Pushing a route never leaves the chunks record empty. -/
theorem pushKey_ne_nil (acc : Chunks) (k : String) (r : UniversalRoute) :
    pushKey acc k r ≠ [] := by
  cases acc with
  | nil => simp [pushKey]
  | cons h t =>
    obtain ⟨k', rs⟩ := h
    simp only [pushKey]
    split <;> simp

/-- Pushing under `k` appends the route to the list stored at `k`. -/
theorem chunkAt_pushKey_same (acc : Chunks) (k : String) (r : UniversalRoute) :
    chunkAt (pushKey acc k r) k = chunkAt acc k ++ [r] := by
  induction acc with
  | nil => simp [pushKey, chunkAt]
  | cons h t ih =>
    obtain ⟨k', rs⟩ := h
    by_cases hk : k' = k
    · simp [pushKey, chunkAt, hk]
    · simp [pushKey, chunkAt, hk, ih]

/-- Pushing under `k` leaves every other key's list unchanged. -/
theorem chunkAt_pushKey_ne (acc : Chunks) {k k' : String} (h : k' ≠ k) (r : UniversalRoute) :
    chunkAt (pushKey acc k r) k' = chunkAt acc k' := by
  induction acc with
  | nil => simp [pushKey, chunkAt, Ne.symm h]
  | cons hd t ih =>
    obtain ⟨k'', rs⟩ := hd
    by_cases hk : k'' = k
    · subst hk
      simp [pushKey, chunkAt, Ne.symm h]
    · simp only [pushKey, if_neg hk, chunkAt]
      rw [ih]

/-- The empty record holds no route. -/
theorem routeInChunks_nil (x : UniversalRoute) : ¬ routeInChunks [] x := by
  simp [routeInChunks]

/-- Unfolding route membership over the head entry. -/
theorem routeInChunks_cons {k : String} {rs : List UniversalRoute} {t : Chunks}
    {x : UniversalRoute} :
    routeInChunks ((k, rs) :: t) x ↔ x ∈ rs ∨ routeInChunks t x := by
  unfold routeInChunks
  constructor
  · rintro ⟨k', rs', hmem, hx⟩
    rcases List.mem_cons.mp hmem with heq | hmem'
    · cases heq; exact Or.inl hx
    · exact Or.inr ⟨k', rs', hmem', hx⟩
  · rintro (hx | ⟨k', rs', hmem, hx⟩)
    · exact ⟨k, rs, List.mem_cons_self _ _, hx⟩
    · exact ⟨k', rs', List.mem_cons_of_mem _ hmem, hx⟩

/-- A route is in the record after a push iff it was there before or is
the pushed route. -/
theorem routeInChunks_pushKey {acc : Chunks} {k : String} {r x : UniversalRoute} :
    routeInChunks (pushKey acc k r) x ↔ routeInChunks acc x ∨ x = r := by
  induction acc with
  | nil =>
    simp [pushKey, routeInChunks_cons, routeInChunks_nil]
  | cons hd t ih =>
    obtain ⟨k', rs⟩ := hd
    by_cases hk : k' = k
    · simp only [pushKey, if_pos hk, routeInChunks_cons, List.mem_append,
        List.mem_singleton]
      tauto
    · simp only [pushKey, if_neg hk, routeInChunks_cons, ih]
      tauto

/-- Pushing a whole route list under one key appends it to that key's
list. -/
theorem chunkAt_foldl_pushKey (m : String) (l : List UniversalRoute) :
    ∀ acc : Chunks,
      chunkAt (l.foldl (fun a r => pushKey a m r) acc) m = chunkAt acc m ++ l := by
  induction l with
  | nil => intro acc; simp
  | cons r rs ih =>
    intro acc
    rw [List.foldl_cons, ih, chunkAt_pushKey_same]
    simp

/-- Pushing a route list under `m` leaves other keys unchanged. -/
theorem chunkAt_foldl_pushKey_ne (m : String) (l : List UniversalRoute) {k : String}
    (hk : k ≠ m) :
    ∀ acc : Chunks,
      chunkAt (l.foldl (fun a r => pushKey a m r) acc) k = chunkAt acc k := by
  induction l with
  | nil => intro acc; simp
  | cons r rs ih =>
    intro acc
    rw [List.foldl_cons, ih, chunkAt_pushKey_ne _ hk]

/-- Membership after pushing a whole list under one key. -/
theorem routeInChunks_foldl_pushKey {m : String} {l : List UniversalRoute} :
    ∀ {acc : Chunks} {x : UniversalRoute},
      routeInChunks (l.foldl (fun a r => pushKey a m r) acc) x ↔
        routeInChunks acc x ∨ x ∈ l := by
  induction l with
  | nil => intro acc x; simp
  | cons r rs ih =>
    intro acc x
    rw [List.foldl_cons, ih, routeInChunks_pushKey]
    simp only [List.mem_cons]
    tauto


/-- A non-empty name always derives some module name. -/
theorem extractModuleFromName_isSome {name : String} (h : name ≠ "") :
    ∃ m, extractModuleFromName name = some m := by
  unfold extractModuleFromName
  rw [if_neg h]
  simp only []
  split_ifs <;> exact ⟨_, rfl⟩

/-- Pushing a route list cannot produce an empty record unless both the
accumulator and the list were empty. -/
theorem foldl_pushKey_ne_nil {m : String} {l : List UniversalRoute} :
    ∀ {acc : Chunks}, (acc ≠ [] ∨ l ≠ []) →
      l.foldl (fun a r => pushKey a m r) acc ≠ [] := by
  induction l with
  | nil =>
    intro acc h
    simpa using h.resolve_right (by simp)
  | cons r rs ih =>
    intro acc _
    rw [List.foldl_cons]
    exact ih (Or.inl (pushKey_ne_nil acc m r))

/-- One controller step never empties a non-empty chunks accumulator. -/
theorem controllerStep_ne_nil {acc : Chunks} {c : ControllerG} (h : acc ≠ []) :
    controllerStep acc c ≠ [] := by
  unfold controllerStep
  split
  · cases hm : extractModuleFromName c.name with
    | none => exact h
    | some m => exact foldl_pushKey_ne_nil (Or.inl h)
  · exact h

/-- The controller pass never empties a non-empty accumulator. -/
theorem foldl_controllerStep_ne_nil {l : List ControllerG} :
    ∀ {acc : Chunks}, acc ≠ [] → l.foldl controllerStep acc ≠ [] := by
  induction l with
  | nil => intro acc h; simpa using h
  | cons c cs ih =>
    intro acc h
    rw [List.foldl_cons]
    exact ih (controllerStep_ne_nil h)

/-- The controller pass over a list containing a named controller with
routes produces a non-empty record. -/
theorem foldl_controllerStep_mem_ne_nil {c : ControllerG}
    (hname : c.name ≠ "") (hroutes : c.routes ≠ []) :
    ∀ (l : List ControllerG) (acc : Chunks), c ∈ l → l.foldl controllerStep acc ≠ []
  | [], _, hmem => absurd hmem (by simp)
  | a :: t, acc, hmem => by
    rw [List.foldl_cons]
    rcases List.mem_cons.mp hmem with rfl | hmem2
    · have hstep : controllerStep acc c ≠ [] := by
        unfold controllerStep
        rw [if_pos hname]
        obtain ⟨m, hm⟩ := extractModuleFromName_isSome hname
        rw [hm]
        exact foldl_pushKey_ne_nil (Or.inr hroutes)
      exact foldl_controllerStep_ne_nil hstep
    · exact foldl_controllerStep_mem_ne_nil hname hroutes t (controllerStep acc a) hmem2

/-- With a named controller owning at least one route, the
controller-direct pass yields at least one module. -/
theorem buildControllerChunks_ne_nil {controllers : List ControllerG} {c : ControllerG}
    (hc : c ∈ controllers) (hname : c.name ≠ "") (hroutes : c.routes ≠ []) :
    buildControllerChunks controllers ≠ [] :=
  foldl_controllerStep_mem_ne_nil hname hroutes controllers [] hc


/-- A controller step preserves every existing key entry. -/
theorem mem_chunkAt_controllerStep {acc : Chunks} {c : ControllerG} {k : String}
    {x : UniversalRoute} (h : x ∈ chunkAt acc k) :
    x ∈ chunkAt (controllerStep acc c) k := by
  unfold controllerStep
  split
  · cases hm : extractModuleFromName c.name with
    | none => exact h
    | some m =>
      by_cases hk : k = m
      · subst hk
        rw [chunkAt_foldl_pushKey]
        exact List.mem_append_left _ h
      · rw [chunkAt_foldl_pushKey_ne _ _ hk]
        exact h
  · exact h

/-- The controller pass preserves every existing key entry. -/
theorem mem_chunkAt_foldl_controllerStep {k : String} {x : UniversalRoute} :
    ∀ (l : List ControllerG) {acc : Chunks}, x ∈ chunkAt acc k →
      x ∈ chunkAt (l.foldl controllerStep acc) k
  | [], _, h => h
  | a :: t, acc, h => by
    rw [List.foldl_cons]
    exact mem_chunkAt_foldl_controllerStep t (mem_chunkAt_controllerStep h)

/-- Each named controller's routes all end up under its derived module
name. -/
theorem buildControllerChunks_insert {c : ControllerG} {m : String} {r : UniversalRoute}
    (hname : c.name ≠ "") (hm : extractModuleFromName c.name = some m)
    (hr : r ∈ c.routes) :
    ∀ (l : List ControllerG) (acc : Chunks), c ∈ l →
      r ∈ chunkAt (l.foldl controllerStep acc) m
  | [], _, hmem => absurd hmem (by simp)
  | a :: t, acc, hmem => by
    rw [List.foldl_cons]
    rcases List.mem_cons.mp hmem with rfl | hmem2
    · have hstep : r ∈ chunkAt (controllerStep acc c) m := by
        unfold controllerStep
        rw [if_pos hname, hm]
        show r ∈ chunkAt (c.routes.foldl (fun a r => pushKey a m r) acc) m
        rw [chunkAt_foldl_pushKey]
        exact List.mem_append_right _ hr
      exact mem_chunkAt_foldl_controllerStep t hstep
    · exact buildControllerChunks_insert hname hm hr t (controllerStep acc a) hmem2

/-- A route present after one controller step was present before or is
owned by that (named) controller. -/
theorem routeInChunks_controllerStep {acc : Chunks} {c : ControllerG} {x : UniversalRoute}
    (h : routeInChunks (controllerStep acc c) x) :
    routeInChunks acc x ∨ (c.name ≠ "" ∧ x ∈ c.routes) := by
  unfold controllerStep at h
  split at h
  · rename_i hname
    cases hm : extractModuleFromName c.name with
    | none => rw [hm] at h; exact Or.inl h
    | some m =>
      rw [hm] at h
      rcases routeInChunks_foldl_pushKey.mp h with h0 | h0
      · exact Or.inl h0
      · exact Or.inr ⟨hname, h0⟩
  · exact Or.inl h

/-- A route present after the controller pass was present before or is
owned by some named controller of the list. -/
theorem routeInChunks_foldl_controllerStep {x : UniversalRoute} :
    ∀ (l : List ControllerG) {acc : Chunks},
      routeInChunks (l.foldl controllerStep acc) x →
      routeInChunks acc x ∨ ∃ c ∈ l, c.name ≠ "" ∧ x ∈ c.routes
  | [], _, h => Or.inl h
  | a :: t, acc, h => by
    rw [List.foldl_cons] at h
    rcases routeInChunks_foldl_controllerStep t h with h0 | ⟨c, hc, hx⟩
    · rcases routeInChunks_controllerStep h0 with h1 | h1
      · exact Or.inl h1
      · exact Or.inr ⟨a, List.mem_cons_self _ _, h1⟩
    · exact Or.inr ⟨c, List.mem_cons_of_mem _ hc, hx⟩

/-- C1: whenever some supplied Controller has a non-empty name and at
least one Route, the grouped output is exactly the controller-direct
result — the fallback strategies never run and the `routes`/`services`
arguments are ignored; every such controller's routes are all appended
under its derived module name; and any route in the output is owned by
some named supplied controller (so a route owned by no controller is
absent). -/
theorem controller_precedence_c1 (routes : List UniversalRoute)
    (services : List ServiceG) (controllers : List ControllerG)
    (h : ∃ c ∈ controllers, c.name ≠ "" ∧ c.routes ≠ []) :
    groupRoutesByController routes services controllers = buildControllerChunks controllers
    ∧ (∀ c ∈ controllers, c.name ≠ "" → ∀ m, extractModuleFromName c.name = some m →
        ∀ r ∈ c.routes, r ∈ chunkAt (groupRoutesByController routes services controllers) m)
    ∧ (∀ x : UniversalRoute,
        routeInChunks (groupRoutesByController routes services controllers) x →
        ∃ c ∈ controllers, c.name ≠ "" ∧ x ∈ c.routes) := by
  rcases h with ⟨c, hc, hname, hroutes⟩
  have hne := buildControllerChunks_ne_nil hc hname hroutes
  have heq : groupRoutesByController routes services controllers
      = buildControllerChunks controllers := by
    unfold groupRoutesByController
    simp only []
    rw [if_neg (by simpa [List.isEmpty_iff] using hne)]
  refine ⟨heq, ?_, ?_⟩
  · intro c' hc' hname' m hm r hr
    rw [heq]
    exact buildControllerChunks_insert hname' hm hr controllers [] hc'
  · intro x hx
    rw [heq] at hx
    unfold buildControllerChunks at hx
    rcases routeInChunks_foldl_controllerStep controllers hx with h0 | h0
    · exact absurd h0 (routeInChunks_nil x)
    · exact h0

/-- Witness for C1: one controller with a route, plus a stray route that
disappears from the grouped output. -/
theorem controller_precedence_c1_witness :
    groupRoutesByController [c1Stray] [] [c1Ctrl] = buildControllerChunks [c1Ctrl] :=
  (controller_precedence_c1 [c1Stray] [] [c1Ctrl]
    ⟨c1Ctrl, by decide, by decide, by decide⟩).1


/-- Sanitized names consist only of allowed characters. -/
theorem sanitize_all_allowed (s : String) :
    (sanitizeModuleName s).data.all allowedModuleChar = true := by
  unfold sanitizeModuleName
  rw [List.all_eq_true]
  intro c hc
  rcases List.mem_map.mp hc with ⟨c0, _, rfl⟩
  by_cases h : allowedModuleChar c0
  · simp [h]
  · simp only [if_neg h]
    decide

/-- A key present after a push was present before or is the pushed key. -/
theorem keys_pushKey {acc : Chunks} {k : String} {r : UniversalRoute} {k' : String}
    (h : k' ∈ (pushKey acc k r).map Prod.fst) :
    k' ∈ acc.map Prod.fst ∨ k' = k := by
  induction acc with
  | nil => simp [pushKey] at h; exact Or.inr h
  | cons hd t ih =>
    obtain ⟨k'', rs⟩ := hd
    by_cases hk : k'' = k
    · rw [show pushKey ((k'', rs) :: t) k r = (k'', rs ++ [r]) :: t from by
        simp [pushKey, hk]] at h
      simp only [List.map_cons, List.mem_cons] at h ⊢
      tauto
    · rw [show pushKey ((k'', rs) :: t) k r = (k'', rs) :: pushKey t k r from by
        simp [pushKey, hk]] at h
      simp only [List.map_cons, List.mem_cons] at h ⊢
      rcases h with h | h
      · exact Or.inl (Or.inl h)
      · rcases ih h with h0 | h0
        · exact Or.inl (Or.inr h0)
        · exact Or.inr h0

/-- Every key the fallback loop adds is a sanitized name. -/
theorem fallbackAux_keys_sanitized (sm : List (String × String)) :
    ∀ (routes : List UniversalRoute) (i : Nat) (acc : Chunks),
      (∀ k ∈ acc.map Prod.fst, k.data.all allowedModuleChar = true) →
      ∀ k ∈ (fallbackChunksAux sm routes i acc).map Prod.fst,
        k.data.all allowedModuleChar = true
  | [], _, acc, hacc, k, hk => hacc k hk
  | r :: rs, i, acc, hacc, k, hk => by
    rw [fallbackChunksAux] at hk
    refine fallbackAux_keys_sanitized sm rs (i + 1) _ ?_ k hk
    intro k' hk'
    rcases keys_pushKey hk' with h | rfl
    · exact hacc k' h
    · exact sanitize_all_allowed _

/-- C2 (amended): when the controller-direct pass produces no module, all
keys of the grouped output are sanitized — every character outside
`[a-zA-Z0-9-_]` has been replaced by `_`. Keys produced by the
controller-direct pass itself are NOT sanitized (see the
counterexample). -/
theorem fallback_keys_sanitized_c2 (routes : List UniversalRoute)
    (services : List ServiceG) (controllers : List ControllerG)
    (h : buildControllerChunks controllers = []) :
    ∀ k ∈ (groupRoutesByController routes services controllers).map Prod.fst,
      k.data.all allowedModuleChar = true := by
  unfold groupRoutesByController
  simp only []
  rw [h]
  rw [if_pos (by simp)]
  exact fallbackAux_keys_sanitized _ routes 0 [] (by simp)

/-- C2 counterexample: grouping by the controller named `"My Controller"`
puts its routes under the key `"my s"`, which contains a space — the
controller-direct strategy never sanitizes its module names, contradicting
the claim that every output key is sanitized. -/
theorem sanitize_c2_counterexample :
    (groupRoutesByController [] [] [c2Ctrl]).map Prod.fst = ["my s"]
    ∧ ¬ (("my s").data.all allowedModuleChar = true)
    ∧ sanitizeModuleName "my s" ≠ "my s" :=
  ⟨by decide, by decide, by decide⟩

/-- Witness for the amended C2: a fallback route with path `"/a b/x"` is
filed under the sanitized key `"a_b"`. -/
theorem fallback_keys_sanitized_c2_witness :
    ("a_b").data.all allowedModuleChar = true :=
  fallback_keys_sanitized_c2 [c2FallbackRoute] [] [] (by decide) "a_b" (by decide)


/-- With no services, a route whose path is non-trivial but has only
parameter segments falls through to the round-robin strategy, which with
an empty module list assigns `"app"`. -/
theorem fallbackAssign_app {r : UniversalRoute} {i : Nat}
    (h1 : r.path ≠ "/") (h2 : r.path ≠ "")
    (h3 : (splitSlash r.path).filter (fun s => !(s == "") && !(beginsWithL s ":")) = []) :
    fallbackAssign [] r i = "app" := by
  unfold fallbackAssign firstServiceMatch
  simp [h1, h2, h3]

/-- The fallback loop files every such route under `"app"`, in order. -/
theorem fallbackAux_all_app :
    ∀ (routes : List UniversalRoute),
      (∀ r ∈ routes, r.path ≠ "/" ∧ r.path ≠ "" ∧
        (splitSlash r.path).filter (fun s => !(s == "") && !(beginsWithL s ":")) = []) →
      ∀ (i : Nat) (l : List UniversalRoute),
        fallbackChunksAux [] routes i [("app", l)] = [("app", l ++ routes)]
  | [], _, i, l => by simp [fallbackChunksAux]
  | r :: rs, hcond, i, l => by
    rw [fallbackChunksAux]
    have hr := hcond r (List.mem_cons_self _ _)
    rw [fallbackAssign_app hr.1 hr.2.1 hr.2.2]
    rw [show sanitizeModuleName "app" = "app" by decide]
    rw [show pushKey [("app", l)] "app" r = [("app", l ++ [r])] from by simp [pushKey]]
    rw [fallbackAux_all_app rs (fun x hx => hcond x (List.mem_cons_of_mem _ hx)) (i + 1) (l ++ [r])]
    simp

/-- C3: with zero Controllers, zero Services and 7 Routes, none matching a
service handler, none with path `/` or empty, and none with a usable
(non-parameter) path segment, the round-robin bucket index
`floor(position / 3)` always exceeds the empty service-derived module
list, so every route is assigned to module `"app"`: the grouped output is
exactly `[("app", routes)]`. -/
theorem round_robin_c3 (routes : List UniversalRoute)
    (hlen : routes.length = 7)
    (hcond : ∀ r ∈ routes, r.path ≠ "/" ∧ r.path ≠ "" ∧
      (splitSlash r.path).filter (fun s => !(s == "") && !(beginsWithL s ":")) = []) :
    groupRoutesByController routes [] [] = [("app", routes)] := by
  cases routes with
  | nil => simp at hlen
  | cons r rs =>
    unfold groupRoutesByController
    rw [show buildControllerChunks [] = [] from rfl]
    rw [if_pos (by simp)]
    rw [show buildServiceModules [] = [] from rfl]
    unfold fallbackChunks
    rw [fallbackChunksAux]
    have hr := hcond r (List.mem_cons_self _ _)
    rw [fallbackAssign_app hr.1 hr.2.1 hr.2.2]
    rw [show sanitizeModuleName "app" = "app" by decide]
    rw [show pushKey ([] : Chunks) "app" r = [("app", [r])] from rfl]
    rw [fallbackAux_all_app rs (fun x hx => hcond x (List.mem_cons_of_mem _ hx)) 1 [r]]
    simp

/-- Witness for C3 at seven concrete `"/:id"` routes. -/
theorem round_robin_c3_witness :
    c3Routes.length = 7 ∧ groupRoutesByController c3Routes [] [] = [("app", c3Routes)] :=
  ⟨by decide, round_robin_c3 c3Routes (by decide) (by decide)⟩


end BetterDocs